import Mathlib

/-!
# go-logging: the level model and the logrus-backed contextual logger

A shallow embedding of `logger/logger.go` and `logger/logrus_logger.go`.

* `Level` is Go's `uint32`; only comparisons and equality tests are made on it,
  so it is embedded as `Nat`.
* Go strings are embedded as Lean `String`s, runes as `Char`s; the Unicode
  case tables behind `strings.ToLower` are an argument `tbl`, every theorem
  holds for any table.
* The clock reading of `time.Since` and the frame reported by
  `runtime.Caller` are arguments of the calls that use them; durations are
  `int64` nanoseconds and `time.Since` saturates at the ends of that range.
* `*logrus.Entry` and `*logrus.Logger` are pointers; the objects live in an
  explicit `Heap` and a nil or dangling pointer dereference (a Go run-time
  panic) is the result `none`.
-/

namespace Logger

/-! ## Level model (`logger.go`) -/

/-- Go `type Level uint32`. -/
abbrev Level := Nat

def PanicLevel : Level := 0
def FatalLevel : Level := 1
def ErrorLevel : Level := 2
def WarnLevel : Level := 3
def InfoLevel : Level := 4
def DebugLevel : Level := 5
def TraceLevel : Level := 6

/-- The seven levels declared in the `const` block. -/
def definedLevels : List Level :=
  [PanicLevel, FatalLevel, ErrorLevel, WarnLevel, InfoLevel, DebugLevel, TraceLevel]

/-- Go `unicode.ToLower`: ASCII runes are lowered arithmetically, every other
rune goes through the Unicode case tables, which are not part of this
repository and are taken as the argument `tbl`. -/
def unicode.ToLower (tbl : Char → Char) (r : Char) : Char :=
  if r.toNat ≤ 127 then
    (if 65 ≤ r.toNat ∧ r.toNat ≤ 90 then Char.ofNat (r.toNat + 32) else r)
  else tbl r

/-- Go `strings.ToLower`: every rune mapped through `unicode.ToLower`. -/
def strings.ToLower (tbl : Char → Char) (s : String) : String :=
  String.mk (s.data.map (unicode.ToLower tbl))

/-- `ParseLevel` of `logger.go`: the switch over the seven constants, with
`"info"` after the switch. -/
def ParseLevel (lvl : Level) : String :=
  if lvl = PanicLevel then "panic"
  else if lvl = FatalLevel then "fatal"
  else if lvl = ErrorLevel then "error"
  else if lvl = WarnLevel then "warn"
  else if lvl = InfoLevel then "info"
  else if lvl = DebugLevel then "debug"
  else if lvl = TraceLevel then "trace"
  else "info"

/-- `ToLogLevel` of `logger.go`: lower the string, switch over the seven
names, `InfoLevel` after the switch. -/
def ToLogLevel (tbl : Char → Char) (s : String) : Level :=
  let lvl := strings.ToLower tbl s
  if lvl = "panic" then PanicLevel
  else if lvl = "fatal" then FatalLevel
  else if lvl = "error" then ErrorLevel
  else if lvl = "warn" then WarnLevel
  else if lvl = "info" then InfoLevel
  else if lvl = "debug" then DebugLevel
  else if lvl = "trace" then TraceLevel
  else InfoLevel

/-- The seven names `ToLogLevel` switches over. -/
def levelNames : List String :=
  ["panic", "fatal", "error", "warn", "info", "debug", "trace"]

/-- Switch one rune between upper and lower case when it is an ASCII letter;
any other rune is left alone. -/
def swapAsciiCase (c : Char) : Char :=
  if 65 ≤ c.toNat ∧ c.toNat ≤ 90 then Char.ofNat (c.toNat + 32)
  else if 97 ≤ c.toNat ∧ c.toNat ≤ 122 then Char.ofNat (c.toNat - 32)
  else c

/-- Switch the case of the ASCII letters at the positions selected by `mask`
(positions beyond the mask are kept). -/
def switchCaseAux : List Bool → List Char → List Char
  | b :: bs, c :: cs => (if b then swapAsciiCase c else c) :: switchCaseAux bs cs
  | _, cs => cs

/-- A string with the ASCII letters at the selected positions case-switched. -/
def switchCase (mask : List Bool) (s : String) : String :=
  String.mk (switchCaseAux mask s.data)

/-! ## Go values and the ambient context (`logger.go`) -/

/-- Go `interface{}` values, as far as this package tells them apart by
dynamic type. -/
inductive Any where
  /-- the nil interface value -/
  | nil
  /-- a value of dynamic type `string` -/
  | str (s : String)
  /-- a value of dynamic type `ContextKey` -/
  | ctxKey (s : String)
  /-- a value of dynamic type `int` -/
  | int (n : Int)
  /-- a `time.Duration`, in nanoseconds -/
  | duration (ns : Int)
  /-- a non-nil `error` with its message -/
  | err (msg : String)
deriving DecidableEq, Repr

/-- `const ContextKeyRequestID = ContextKey("correlationId")`. -/
def ContextKeyRequestID : Any := Any.ctxKey "correlationId"

/-- `const ContextKeyTenantID = ContextKey("tenantId")`. -/
def ContextKeyTenantID : Any := Any.ctxKey "tenantId"

/-- Go `context.Context`: the chain of `context.WithValue` pairs, innermost
first; the empty list is `context.Background()`. -/
abbrev context.Context := List (Any × Any)

/-- Go `ctx.Value(key)`: the innermost value stored under an equal key (same
dynamic type and same value), nil when there is none. -/
def context.Context.Value : context.Context → Any → Any
  | [], _ => Any.nil
  | (k, v) :: rest, key => if k = key then v else context.Context.Value rest key

/-- `GetRequestID` of `logger.go`: the value under `ContextKeyRequestID` when
it is a string, the empty string otherwise. -/
def GetRequestID (ctx : context.Context) : String :=
  match ctx.Value ContextKeyRequestID with
  | Any.str ret => ret
  | _ => ""

/-- `GetTenantID` of `logger.go`: the value under `ContextKeyTenantID` when it
is a string, the empty string otherwise. -/
def GetTenantID (ctx : context.Context) : String :=
  match ctx.Value ContextKeyTenantID with
  | Any.str ret => ret
  | _ => ""

/-! ## The logrus backend (external collaborator)

The parts of `github.com/sirupsen/logrus` that `logrus_logger.go` calls,
embedded after the library: entries are derived by copying the field map, a
record is written when its level is enabled by the logger threshold. -/

/-- Go `type Fields map[string]interface{}`: at most one pair per key. -/
abbrev Fields := List (String × Any)

/-- Go `m[k] = v` on a field map. -/
def Fields.insert (m : Fields) (k : String) (v : Any) : Fields :=
  m.filter (fun p => p.1 != k) ++ [(k, v)]

/-- Go `v, ok := m[k]`. -/
def Fields.get? (m : Fields) (k : String) : Option Any :=
  (m.find? (fun p => p.1 == k)).map Prod.snd

def logrus.PanicLevel : Nat := 0
def logrus.FatalLevel : Nat := 1
def logrus.ErrorLevel : Nat := 2
def logrus.WarnLevel : Nat := 3
def logrus.InfoLevel : Nat := 4
def logrus.DebugLevel : Nat := 5
def logrus.TraceLevel : Nat := 6

/-- The level names of logrus with their levels ("warning" is a second name
of the warn level). -/
def logrus.levelTable : List (String × Nat) :=
  [("panic", logrus.PanicLevel), ("fatal", logrus.FatalLevel),
   ("error", logrus.ErrorLevel), ("warn", logrus.WarnLevel),
   ("warning", logrus.WarnLevel), ("info", logrus.InfoLevel),
   ("debug", logrus.DebugLevel), ("trace", logrus.TraceLevel)]

/-- `logrus.ParseLevel`: looks the lowered name up, an error for any other
string. -/
def logrus.ParseLevel (tbl : Char → Char) (lvl : String) : Except String Nat :=
  match logrus.levelTable.find? (fun p => p.1 == strings.ToLower tbl lvl) with
  | some p => Except.ok p.2
  | none => Except.error ("not a valid logrus Level: " ++ lvl.quote)

/-- One record written by the backend. -/
structure Record where
  Level : Nat
  Message : String
  Data : Fields
deriving DecidableEq, Repr

/-- `logrus.Logger`: the threshold `Level` and, for `Out`, the records written
to the output so far. -/
structure logrus.Logger where
  Level : Nat
  Out : List Record
deriving DecidableEq, Repr

/-- `logrus.Entry`: a pointer to its logger, the field map, the bound
context (`none` for a nil context). -/
structure logrus.Entry where
  Logger : Nat
  Data : Fields
  Context : Option context.Context
deriving DecidableEq, Repr

/-- The objects behind `*logrus.Logger` and `*logrus.Entry` pointers; a
pointer is an index, and an index that is not allocated is a nil pointer. -/
structure Heap where
  loggers : List logrus.Logger
  entries : List logrus.Entry
deriving DecidableEq, Repr

/-- Go `&Entry{...}`: allocate a fresh entry, return its pointer. -/
def Heap.newEntry (h : Heap) (e : logrus.Entry) : Nat × Heap :=
  (h.entries.length, { h with entries := h.entries ++ [e] })

/-- `(*Entry).WithFields`: a new entry over the same logger and context whose
field map is a copy of the old one with `fields` stored into it. -/
def logrus.Entry.WithFields (h : Heap) (p : Nat) (fields : Fields) : Option (Nat × Heap) :=
  match h.entries[p]? with
  | none => none
  | some e =>
    some (h.newEntry
      { Logger := e.Logger,
        Data := fields.foldl (fun m kv => Fields.insert m kv.1 kv.2) e.Data,
        Context := e.Context })

/-- `(*Entry).WithField`: `WithFields` of the single pair. -/
def logrus.Entry.WithField (h : Heap) (p : Nat) (key : String) (value : Any) :
    Option (Nat × Heap) :=
  logrus.Entry.WithFields h p [(key, value)]

/-- `(*Entry).WithError`: the error stored under `logrus.ErrorKey`. -/
def logrus.Entry.WithError (h : Heap) (p : Nat) (err : Any) : Option (Nat × Heap) :=
  logrus.Entry.WithField h p "error" err

/-- `(*Entry).WithContext`: a new entry with a copy of the field map and the
given context. -/
def logrus.Entry.WithContext (h : Heap) (p : Nat) (ctx : context.Context) : Option (Nat × Heap) :=
  match h.entries[p]? with
  | none => none
  | some e => some (h.newEntry { Logger := e.Logger, Data := e.Data, Context := some ctx })

/-- `(*Entry).Log`: the record is written exactly when its level is enabled,
that is when it is at most the threshold of the entry's logger. -/
def logrus.Entry.Log (h : Heap) (p : Nat) (level : Nat) (msg : String) : Option Heap :=
  match h.entries[p]? with
  | none => none
  | some e =>
    match h.loggers[e.Logger]? with
    | none => none
    | some g =>
      if level ≤ g.Level then
        let r : Record := { Level := level, Message := msg, Data := e.Data }
        some { h with loggers := h.loggers.set e.Logger ({ g with Out := g.Out ++ [r] }) }
      else some h

/-- `(*Entry).Debug`. -/
def logrus.Entry.Debug (h : Heap) (p : Nat) (msg : String) : Option Heap :=
  logrus.Entry.Log h p logrus.DebugLevel msg

/-! ## The contextual logger (`logrus_logger.go`) -/

/-- `LogrusLogger`: the pointer to the backend entry and the two locally
stored identifiers (the embedded `Logger` interface value is never set). -/
structure LogrusLogger where
  entry : Nat
  CorrelationID : String
  TenantID : String
deriving DecidableEq, Repr

/-- Go `error`: `none` is the nil error. -/
abbrev error := Option String

/-- What `runtime.Caller(2)` and `runtime.FuncForPC(pc).Name()` report. -/
structure Caller where
  file : String
  line : Int
  funcName : String
deriving DecidableEq, Repr

/-- `SetArea`: a logger over the entry with the field "Area" added. -/
def LogrusLogger.SetArea (l : LogrusLogger) (h : Heap) (area : String) :
    Option (LogrusLogger × Heap) :=
  match logrus.Entry.WithField h l.entry "Area" (Any.str area) with
  | none => none
  | some (p, h1) => some ({ entry := p, CorrelationID := "", TenantID := "" }, h1)

/-- `SetOperation`: a logger over the entry with the field "Operation" added. -/
def LogrusLogger.SetOperation (l : LogrusLogger) (h : Heap) (operation : String) :
    Option (LogrusLogger × Heap) :=
  match logrus.Entry.WithField h l.entry "Operation" (Any.str operation) with
  | none => none
  | some (p, h1) => some ({ entry := p, CorrelationID := "", TenantID := "" }, h1)

/-- `SetTenantID`: the receiver for the empty string, otherwise a logger with
`TenantID` set over the entry with the field "TenantID" added. -/
def LogrusLogger.SetTenantID (l : LogrusLogger) (h : Heap) (tenantID : String) :
    Option (LogrusLogger × Heap) :=
  if tenantID = "" then some (l, h)
  else
    match logrus.Entry.WithField h l.entry "TenantID" (Any.str tenantID) with
    | none => none
    | some (p, h1) => some ({ TenantID := tenantID, entry := p, CorrelationID := "" }, h1)

/-- `SetCorrelationID`: the receiver for the empty string, otherwise a logger
with `CorrelationID` set over the entry with the field "CorrelationID" added. -/
def LogrusLogger.SetCorrelationID (l : LogrusLogger) (h : Heap) (correlationID : String) :
    Option (LogrusLogger × Heap) :=
  if correlationID = "" then some (l, h)
  else
    match logrus.Entry.WithField h l.entry "CorrelationID" (Any.str correlationID) with
    | none => none
    | some (p, h1) =>
      some ({ CorrelationID := correlationID, entry := p, TenantID := "" }, h1)

/-- `GetCorrelationID`: the stored field. -/
def LogrusLogger.GetCorrelationID (l : LogrusLogger) : String := l.CorrelationID

/-- `GetTenantID`: the stored field. -/
def LogrusLogger.GetTenantID (l : LogrusLogger) : String := l.TenantID

/-- `WithField`. -/
def LogrusLogger.WithField (l : LogrusLogger) (h : Heap) (key : String) (value : Any) :
    Option (LogrusLogger × Heap) :=
  match logrus.Entry.WithField h l.entry key value with
  | none => none
  | some (p, h1) => some ({ entry := p, CorrelationID := "", TenantID := "" }, h1)

/-- `WithFields`. -/
def LogrusLogger.WithFields (l : LogrusLogger) (h : Heap) (fields : Fields) :
    Option (LogrusLogger × Heap) :=
  match logrus.Entry.WithFields h l.entry fields with
  | none => none
  | some (p, h1) => some ({ entry := p, CorrelationID := "", TenantID := "" }, h1)

/-- `WithError`. -/
def LogrusLogger.WithError (l : LogrusLogger) (h : Heap) (err : Any) :
    Option (LogrusLogger × Heap) :=
  match logrus.Entry.WithError h l.entry err with
  | none => none
  | some (p, h1) => some ({ entry := p, CorrelationID := "", TenantID := "" }, h1)

/-- `WithContext`: both identifiers are read from `ctx`, `SetCorrelationID`
then `SetTenantID` are applied, `ctx` is bound to the entry of the result, and
a logger over that entry alone is returned. -/
def LogrusLogger.WithContext (l : LogrusLogger) (h : Heap) (ctx : context.Context) :
    Option (LogrusLogger × Heap) :=
  let corrID := Logger.GetRequestID ctx
  let tenantID := Logger.GetTenantID ctx
  match l.SetCorrelationID h corrID with
  | none => none
  | some (l1, h1) =>
    match l1.SetTenantID h1 tenantID with
    | none => none
    | some (l2, h2) =>
      match logrus.Entry.WithContext h2 l2.entry ctx with
      | none => none
      | some (log, h3) => some ({ entry := log, CorrelationID := "", TenantID := "" }, h3)

/-- `ParseLogrusLevel`: the switch over the seven logrus constants, with
`InfoLevel` after the switch. -/
def ParseLogrusLevel (lvl : Nat) : Level :=
  if lvl = logrus.PanicLevel then PanicLevel
  else if lvl = logrus.FatalLevel then FatalLevel
  else if lvl = logrus.ErrorLevel then ErrorLevel
  else if lvl = logrus.WarnLevel then WarnLevel
  else if lvl = logrus.InfoLevel then InfoLevel
  else if lvl = logrus.DebugLevel then DebugLevel
  else if lvl = logrus.TraceLevel then TraceLevel
  else InfoLevel

/-- `SetLevel`: the backend parser `parse` (the `logrus.ParseLevel` of the
linked backend) is run on `ParseLevel level`; its error is returned as is,
before anything is touched; otherwise the level is stored into the logger the
entry points to. -/
def LogrusLogger.SetLevel (parse : String → Except String Nat) (l : LogrusLogger)
    (h : Heap) (level : Level) : Option (error × Heap) :=
  match parse (ParseLevel level) with
  | Except.error err => some (some err, h)
  | Except.ok lvl =>
    match h.entries[l.entry]? with
    | none => none
    | some e =>
      match h.loggers[e.Logger]? with
      | none => none
      | some g =>
        some (none, { h with loggers := h.loggers.set e.Logger ({ g with Level := lvl }) })

/-- `GetLevel`: the threshold of the logger the entry points to, mapped back
with `ParseLogrusLevel`. -/
def LogrusLogger.GetLevel (l : LogrusLogger) (h : Heap) : Option Level :=
  match h.entries[l.entry]? with
  | none => none
  | some e =>
    match h.loggers[e.Logger]? with
    | none => none
    | some g => some (ParseLogrusLevel g.Level)

/-- `addCallerInfo`: the entry with the fields "File", "Line" and "Func" of
the caller added, one `WithField` after the other. -/
def LogrusLogger.addCallerInfo (l : LogrusLogger) (h : Heap) (c : Caller) :
    Option (Nat × Heap) :=
  match logrus.Entry.WithField h l.entry "File" (Any.str c.file) with
  | none => none
  | some (p1, h1) =>
    match logrus.Entry.WithField h1 p1 "Line" (Any.int c.line) with
    | none => none
    | some (p2, h2) => logrus.Entry.WithField h2 p2 "Func" (Any.str c.funcName)

/-- Go `maxDuration`: the largest `time.Duration` (an `int64` of nanoseconds). -/
def time.maxDuration : Int := 9223372036854775807

/-- Go `minDuration`: the smallest `time.Duration`. -/
def time.minDuration : Int := -9223372036854775808

/-- Go `time.Since(start)`, that is `now.Sub(start)` for the clock reading
`now`, both instants in nanoseconds: the difference, replaced by
`minDuration` or `maxDuration` when it does not fit a `time.Duration`. -/
def time.Since (start now : Int) : Int :=
  let d := now - start
  if d < time.minDuration then time.minDuration
  else if time.maxDuration < d then time.maxDuration
  else d

/-- `TrackFuncTime`: returns at once when `GetLevel() > DebugLevel`; otherwise
a Debug record with the caller fields and "executionTime" is handed to the
backend. `now` is the clock reading of `time.Since`. -/
def LogrusLogger.TrackFuncTime (l : LogrusLogger) (h : Heap) (c : Caller)
    (start now : Int) : Option Heap :=
  match l.GetLevel h with
  | none => none
  | some lvl =>
    if lvl > DebugLevel then some h
    else
      let elapsed := time.Since start now
      match l.addCallerInfo h c with
      | none => none
      | some (p, h1) =>
        match logrus.Entry.WithField h1 p "executionTime" (Any.duration elapsed) with
        | none => none
        | some (p2, h2) => logrus.Entry.Debug h2 p2 "func execution completed"

/-- `NewLogrusLogger`: a fresh backend logger at threshold `lv` and a fresh
entry over it with an empty field map. -/
def NewLogrusLogger (h : Heap) (lv : Nat) : LogrusLogger × Heap :=
  let g : logrus.Logger := { Level := lv, Out := [] }
  let e : logrus.Entry := { Logger := h.loggers.length, Data := [], Context := none }
  ({ entry := h.entries.length, CorrelationID := "", TenantID := "" },
   { loggers := h.loggers ++ [g], entries := h.entries ++ [e] })

/-- One deriving call of the `Logger` interface, with its arguments. -/
inductive Op where
  | SetArea (area : String)
  | SetOperation (operation : String)
  | SetTenantID (tenantID : String)
  | SetCorrelationID (correlationID : String)
  | WithField (key : String) (value : Any)
  | WithFields (fields : Fields)
  | WithError (err : Any)
  | WithContext (ctx : context.Context)
deriving DecidableEq, Repr

/-- Run one deriving call on a logger. -/
def LogrusLogger.apply (l : LogrusLogger) (h : Heap) : Op → Option (LogrusLogger × Heap)
  | Op.SetArea area => l.SetArea h area
  | Op.SetOperation operation => l.SetOperation h operation
  | Op.SetTenantID tenantID => l.SetTenantID h tenantID
  | Op.SetCorrelationID correlationID => l.SetCorrelationID h correlationID
  | Op.WithField key value => l.WithField h key value
  | Op.WithFields fields => l.WithFields h fields
  | Op.WithError err => l.WithError h err
  | Op.WithContext ctx => l.WithContext h ctx

/-- Run a chain of deriving calls, each on the result of the one before. -/
def LogrusLogger.derive (l : LogrusLogger) (h : Heap) : List Op → Option (LogrusLogger × Heap)
  | [] => some (l, h)
  | op :: ops =>
    match l.apply h op with
    | none => none
    | some (l1, h1) => LogrusLogger.derive l1 h1 ops

/-- The empty heap. -/
def Heap.empty : Heap := { loggers := [], entries := [] }

/-- The records written so far through the logger that entry `p` points to. -/
def Heap.outOf (h : Heap) (p : Nat) : Option (List Record) :=
  match h.entries[p]? with
  | none => none
  | some e =>
    match h.loggers[e.Logger]? with
    | none => none
    | some g => some g.Out

/-- The result of a deriving call: it returned a logger, and that logger
reports the identifiers `c` and `t`. -/
def ReturnsIDs (r : Option (LogrusLogger × Heap)) (c t : String) : Prop :=
  ∃ l1 h1, r = some (l1, h1) ∧ l1.GetCorrelationID = c ∧ l1.GetTenantID = t

/-- A root logger at threshold `lv` on an otherwise empty heap. -/
def rootAt (lv : Nat) : LogrusLogger × Heap := NewLogrusLogger Heap.empty lv

/-- A context holding `correlationId = "abc123"` and no `tenantId`. -/
def ctxAbc : context.Context := [(ContextKeyRequestID, Any.str "abc123")]

/-- A backend parser that knows the name "error" only. -/
def parseErrorOnly (s : String) : Except String Nat :=
  if s = "error" then Except.ok logrus.ErrorLevel else Except.error "unknown level"

/-- The field map of the entry `WithContext` binds the context to: the
receiver's, with "CorrelationID" and then "TenantID" stored when non-empty. -/
def withContextData (d : Fields) (corrID tenantID : String) : Fields :=
  let d1 := if corrID = "" then d else Fields.insert d "CorrelationID" (Any.str corrID)
  if tenantID = "" then d1 else Fields.insert d1 "TenantID" (Any.str tenantID)

/-- The field map of the record `TrackFuncTime` hands to the backend: the
receiver's, with the caller fields and "executionTime" stored. -/
def trackData (d : Fields) (c : Caller) (elapsed : Int) : Fields :=
  Fields.insert
    (Fields.insert
      (Fields.insert (Fields.insert d "File" (Any.str c.file)) "Line" (Any.int c.line))
      "Func" (Any.str c.funcName))
    "executionTime" (Any.duration elapsed)

/-! ## Theorems: level model -/

theorem toNat_ofNat_of_lt (n : Nat) (h : n < 55296) : (Char.ofNat n).toNat = n := by
  have hv : n.isValidChar := Or.inl h
  simp only [Char.ofNat, hv, Char.toNat, Char.ofNatAux, dif_pos]
  rfl

/-- Lowering a rune does not see whether an ASCII letter was case-switched. -/
theorem unicode_ToLower_swapAsciiCase (tbl : Char → Char) (c : Char) :
    unicode.ToLower tbl (swapAsciiCase c) = unicode.ToLower tbl c := by
  unfold swapAsciiCase unicode.ToLower
  by_cases hu : 65 ≤ c.toNat ∧ c.toNat ≤ 90
  · have h1 : (Char.ofNat (c.toNat + 32)).toNat = c.toNat + 32 :=
      toNat_ofNat_of_lt _ (by omega)
    have h2 : c.toNat ≤ 127 := by omega
    have h3 : ¬ (65 ≤ c.toNat + 32 ∧ c.toNat + 32 ≤ 90) := by omega
    have h4 : c.toNat + 32 ≤ 127 := by omega
    simp only [if_pos hu, h1, if_pos h2, if_neg h3, if_pos h4]
  · by_cases hl : 97 ≤ c.toNat ∧ c.toNat ≤ 122
    · have h1 : (Char.ofNat (c.toNat - 32)).toNat = c.toNat - 32 :=
        toNat_ofNat_of_lt _ (by omega)
      have h2 : c.toNat ≤ 127 := by omega
      have h3 : 65 ≤ c.toNat - 32 ∧ c.toNat - 32 ≤ 90 := by omega
      have h4 : c.toNat - 32 ≤ 127 := by omega
      have h5 : c.toNat - 32 + 32 = c.toNat := by omega
      simp only [if_neg hu, if_pos hl, h1, if_pos h2, if_pos h3, if_pos h4, h5,
        Char.ofNat_toNat]
    · simp only [if_neg hu, if_neg hl]

theorem map_ToLower_switchCaseAux (tbl : Char → Char) (mask : List Bool) (cs : List Char) :
    (switchCaseAux mask cs).map (unicode.ToLower tbl) = cs.map (unicode.ToLower tbl) := by
  induction mask generalizing cs with
  | nil => cases cs <;> rfl
  | cons b bs ih =>
    cases cs with
    | nil => rfl
    | cons c cs =>
      cases b
      · simp [switchCaseAux, ih]
      · simp [switchCaseAux, ih, unicode_ToLower_swapAsciiCase]

theorem strings_ToLower_switchCase (tbl : Char → Char) (mask : List Bool) (s : String) :
    strings.ToLower tbl (switchCase mask s) = strings.ToLower tbl s := by
  simp [strings.ToLower, switchCase, map_ToLower_switchCaseAux]

/-- C3: for each of the seven defined levels `L`, converting `L` to its name
with `ParseLevel` and back with `ToLogLevel` gives `L` again. -/
theorem ToLogLevel_ParseLevel_roundtrip (tbl : Char → Char) (L : Level)
    (hL : L ∈ definedLevels) : ToLogLevel tbl (ParseLevel L) = L := by
  simp only [definedLevels, List.mem_cons, List.mem_singleton, List.not_mem_nil,
    or_false] at hL
  rcases hL with h | h | h | h | h | h | h <;> subst h <;> rfl

theorem ToLogLevel_ParseLevel_roundtrip_witness :
    DebugLevel ∈ definedLevels ∧ ToLogLevel id (ParseLevel DebugLevel) = DebugLevel :=
  ⟨by decide, ToLogLevel_ParseLevel_roundtrip id DebugLevel (by decide)⟩

theorem ParseLevel_of_gt (lvl : Level) (h : ¬ lvl ≤ 6) : ParseLevel lvl = "info" := by
  have h7 : (6 : Nat) < lvl := Nat.lt_of_not_le h
  have h0 : lvl ≠ 0 := fun e => by rw [e] at h7; omega
  have h1 : lvl ≠ 1 := fun e => by rw [e] at h7; omega
  have h2 : lvl ≠ 2 := fun e => by rw [e] at h7; omega
  have h3 : lvl ≠ 3 := fun e => by rw [e] at h7; omega
  have h4 : lvl ≠ 4 := fun e => by rw [e] at h7; omega
  have h5 : lvl ≠ 5 := fun e => by rw [e] at h7; omega
  have h6 : lvl ≠ 6 := fun e => by rw [e] at h7; omega
  simp [ParseLevel, PanicLevel, FatalLevel, ErrorLevel, WarnLevel, InfoLevel,
    DebugLevel, TraceLevel, h0, h1, h2, h3, h4, h5, h6]

/-- C6: `ParseLevel` returns "info" for every level value outside 0..6, and
`ToLogLevel` returns `InfoLevel` for every string whose lowered form is none of
the seven level names; both are total functions with a plain (error-free)
result type. -/
theorem default_fallback (tbl : Char → Char) :
    (∀ lvl : Level, ¬ lvl ≤ 6 → ParseLevel lvl = "info") ∧
    (∀ s : String, strings.ToLower tbl s ∉ levelNames → ToLogLevel tbl s = InfoLevel) := by
  refine ⟨?_, ?_⟩
  · exact fun lvl h => ParseLevel_of_gt lvl h
  · intro s h
    simp only [levelNames, List.mem_cons, List.mem_singleton, List.not_mem_nil,
      or_false, not_or] at h
    obtain ⟨h0, h1, h2, h3, h4, h5, h6⟩ := h
    simp only [ToLogLevel, if_neg h0, if_neg h1, if_neg h2, if_neg h3, if_neg h5, if_neg h6,
      ite_self]

theorem default_fallback_witness :
    (¬ (7 : Level) ≤ 6 ∧ ParseLevel 7 = "info") ∧
    (strings.ToLower id "bogus" ∉ levelNames ∧ ToLogLevel id "bogus" = InfoLevel) :=
  ⟨⟨by decide, (default_fallback id).1 7 (by decide)⟩,
   ⟨by decide, (default_fallback id).2 "bogus" (by decide)⟩⟩

/-- C7: `ToLogLevel` is case-insensitive: switching any of the ASCII letters
of `s` between upper and lower case does not change `ToLogLevel s`; and
`ToLogLevel "ERROR" = ToLogLevel "error" = ErrorLevel`. -/
theorem ToLogLevel_case_insensitive (tbl : Char → Char) (mask : List Bool) (s : String) :
    ToLogLevel tbl (switchCase mask s) = ToLogLevel tbl s ∧
    ToLogLevel tbl "ERROR" = ToLogLevel tbl "error" ∧
    ToLogLevel tbl "error" = ErrorLevel := by
  refine ⟨?_, rfl, rfl⟩
  simp only [ToLogLevel, strings_ToLower_switchCase]


/-! ## Theorems: backend entries -/

theorem getElem?_of_lt_entries (h : Heap) (p : Nat) (hp : p < h.entries.length) :
    ∃ e, h.entries[p]? = some e :=
  ⟨h.entries[p], List.getElem?_eq_getElem hp⟩

theorem WithFields_eq (h : Heap) (p : Nat) (e : logrus.Entry) (fields : Fields)
    (he : h.entries[p]? = some e) :
    logrus.Entry.WithFields h p fields =
      some (h.entries.length,
        { h with entries := h.entries ++
            [{ Logger := e.Logger,
               Data := fields.foldl (fun m kv => Fields.insert m kv.1 kv.2) e.Data,
               Context := e.Context }] }) := by
  simp [logrus.Entry.WithFields, he, Heap.newEntry]

theorem WithField_eq (h : Heap) (p : Nat) (e : logrus.Entry) (k : String) (v : Any)
    (he : h.entries[p]? = some e) :
    logrus.Entry.WithField h p k v =
      some (h.entries.length,
        { h with entries := h.entries ++
            [{ Logger := e.Logger, Data := Fields.insert e.Data k v,
               Context := e.Context }] }) := by
  simp [logrus.Entry.WithField, WithFields_eq h p e _ he]

theorem WithContext_eq (h : Heap) (p : Nat) (e : logrus.Entry) (ctx : context.Context)
    (he : h.entries[p]? = some e) :
    logrus.Entry.WithContext h p ctx =
      some (h.entries.length,
        { h with entries := h.entries ++
            [{ Logger := e.Logger, Data := e.Data, Context := some ctx }] }) := by
  simp [logrus.Entry.WithContext, he, Heap.newEntry]

theorem Fields_find?_filter_ne (m : Fields) (k : String) :
    (m.filter (fun p => p.1 != k)).find? (fun p => p.1 == k) = none := by
  induction m with
  | nil => rfl
  | cons a m ih =>
    by_cases hk : a.1 = k
    · simp [List.filter, hk, ih]
    · have : (a.1 != k) = true := by simp [hk]
      simp [List.filter, this, List.find?, hk, ih]

theorem Fields_get?_insert (m : Fields) (k : String) (v : Any) :
    (Fields.insert m k v).get? k = some v := by
  simp [Fields.insert, Fields.get?, List.find?_append, Fields_find?_filter_ne]

/-! ## Theorems: what each deriving call returns on a live receiver -/

theorem SetArea_eq (l : LogrusLogger) (h : Heap) (e : logrus.Entry) (area : String)
    (he : h.entries[l.entry]? = some e) :
    l.SetArea h area =
      some ({ entry := h.entries.length, CorrelationID := "", TenantID := "" },
        { h with entries := h.entries ++
            [{ Logger := e.Logger, Data := Fields.insert e.Data "Area" (Any.str area),
               Context := e.Context }] }) := by
  simp only [LogrusLogger.SetArea, WithField_eq h l.entry e _ _ he]

theorem SetOperation_eq (l : LogrusLogger) (h : Heap) (e : logrus.Entry) (operation : String)
    (he : h.entries[l.entry]? = some e) :
    l.SetOperation h operation =
      some ({ entry := h.entries.length, CorrelationID := "", TenantID := "" },
        { h with entries := h.entries ++
            [{ Logger := e.Logger, Data := Fields.insert e.Data "Operation" (Any.str operation),
               Context := e.Context }] }) := by
  simp only [LogrusLogger.SetOperation, WithField_eq h l.entry e _ _ he]

theorem SetTenantID_eq (l : LogrusLogger) (h : Heap) (e : logrus.Entry) (tenantID : String)
    (he : h.entries[l.entry]? = some e) (ht : tenantID ≠ "") :
    l.SetTenantID h tenantID =
      some ({ entry := h.entries.length, CorrelationID := "", TenantID := tenantID },
        { h with entries := h.entries ++
            [{ Logger := e.Logger, Data := Fields.insert e.Data "TenantID" (Any.str tenantID),
               Context := e.Context }] }) := by
  simp only [LogrusLogger.SetTenantID, if_neg ht, WithField_eq h l.entry e _ _ he]

theorem SetCorrelationID_eq (l : LogrusLogger) (h : Heap) (e : logrus.Entry)
    (correlationID : String) (he : h.entries[l.entry]? = some e) (hc : correlationID ≠ "") :
    l.SetCorrelationID h correlationID =
      some ({ entry := h.entries.length, CorrelationID := correlationID, TenantID := "" },
        { h with entries := h.entries ++
            [{ Logger := e.Logger,
               Data := Fields.insert e.Data "CorrelationID" (Any.str correlationID),
               Context := e.Context }] }) := by
  simp only [LogrusLogger.SetCorrelationID, if_neg hc, WithField_eq h l.entry e _ _ he]

theorem LWithField_eq (l : LogrusLogger) (h : Heap) (e : logrus.Entry) (key : String)
    (value : Any) (he : h.entries[l.entry]? = some e) :
    l.WithField h key value =
      some ({ entry := h.entries.length, CorrelationID := "", TenantID := "" },
        { h with entries := h.entries ++
            [{ Logger := e.Logger, Data := Fields.insert e.Data key value,
               Context := e.Context }] }) := by
  simp only [LogrusLogger.WithField, WithField_eq h l.entry e _ _ he]

theorem LWithFields_eq (l : LogrusLogger) (h : Heap) (e : logrus.Entry) (fields : Fields)
    (he : h.entries[l.entry]? = some e) :
    l.WithFields h fields =
      some ({ entry := h.entries.length, CorrelationID := "", TenantID := "" },
        { h with entries := h.entries ++
            [{ Logger := e.Logger,
               Data := fields.foldl (fun m kv => Fields.insert m kv.1 kv.2) e.Data,
               Context := e.Context }] }) := by
  simp only [LogrusLogger.WithFields, WithFields_eq h l.entry e _ he]

theorem LWithError_eq (l : LogrusLogger) (h : Heap) (e : logrus.Entry) (err : Any)
    (he : h.entries[l.entry]? = some e) :
    l.WithError h err =
      some ({ entry := h.entries.length, CorrelationID := "", TenantID := "" },
        { h with entries := h.entries ++
            [{ Logger := e.Logger, Data := Fields.insert e.Data "error" err,
               Context := e.Context }] }) := by
  simp only [LogrusLogger.WithError, logrus.Entry.WithError, WithField_eq h l.entry e _ _ he]

theorem LWithContext_eq (l : LogrusLogger) (h : Heap) (e : logrus.Entry) (ctx : context.Context)
    (he : h.entries[l.entry]? = some e) :
    ∃ mid : List logrus.Entry,
    l.WithContext h ctx =
      some ({ entry := (h.entries ++ mid).length, CorrelationID := "", TenantID := "" },
        { h with entries := (h.entries ++ mid) ++
            [{ Logger := e.Logger,
               Data := withContextData e.Data (GetRequestID ctx) (GetTenantID ctx),
               Context := some ctx }] }) := by
  by_cases hc : GetRequestID ctx = ""
  · by_cases ht : GetTenantID ctx = ""
    · refine ⟨[], ?_⟩
      simp [LogrusLogger.WithContext, LogrusLogger.SetCorrelationID, LogrusLogger.SetTenantID,
        hc, ht, WithContext_eq h l.entry e ctx he, withContextData]
    · refine ⟨[logrus.Entry.mk e.Logger
        (Fields.insert e.Data "TenantID" (Any.str (GetTenantID ctx))) e.Context], ?_⟩
      simp only [LogrusLogger.WithContext, LogrusLogger.SetCorrelationID, hc, if_true,
        SetTenantID_eq l h e _ he ht]
      rw [WithContext_eq _ _ _ ctx (List.getElem?_concat_length _ _)]
      simp [withContextData, hc, ht]
  · by_cases ht : GetTenantID ctx = ""
    · refine ⟨[logrus.Entry.mk e.Logger
        (Fields.insert e.Data "CorrelationID" (Any.str (GetRequestID ctx))) e.Context], ?_⟩
      simp only [LogrusLogger.WithContext, LogrusLogger.SetTenantID, ht, if_true,
        SetCorrelationID_eq l h e _ he hc]
      rw [WithContext_eq _ _ _ ctx (List.getElem?_concat_length _ _)]
      simp [withContextData, hc, ht]
    · refine ⟨[logrus.Entry.mk e.Logger
        (Fields.insert e.Data "CorrelationID" (Any.str (GetRequestID ctx))) e.Context,
        logrus.Entry.mk e.Logger
        (Fields.insert (Fields.insert e.Data "CorrelationID" (Any.str (GetRequestID ctx)))
          "TenantID" (Any.str (GetTenantID ctx))) e.Context], ?_⟩
      simp only [LogrusLogger.WithContext, SetCorrelationID_eq l h e _ he hc]
      rw [SetTenantID_eq _ _ _ _ (List.getElem?_concat_length _ _) ht]
      dsimp only
      rw [WithContext_eq _ _ _ ctx (List.getElem?_concat_length _ _)]
      simp [withContextData, hc, ht]

/-! ## Theorems: deriving calls only ever allocate -/

/-- What every deriving call guarantees on a live receiver: it returns, the
returned logger is live, the backend loggers are untouched and the entries
that existed are all still there, unchanged. -/
theorem apply_extends (l : LogrusLogger) (h : Heap) (op : Op)
    (hl : l.entry < h.entries.length) :
    ∃ l1 h1, l.apply h op = some (l1, h1) ∧ l1.entry < h1.entries.length ∧
      h1.loggers = h.loggers ∧ ∃ extra, h1.entries = h.entries ++ extra := by
  obtain ⟨e, he⟩ := getElem?_of_lt_entries h l.entry hl
  cases op with
  | SetArea area =>
    exact ⟨_, _, SetArea_eq l h e area he, by simp, rfl, ⟨_, rfl⟩⟩
  | SetOperation operation =>
    exact ⟨_, _, SetOperation_eq l h e operation he, by simp, rfl, ⟨_, rfl⟩⟩
  | SetTenantID tenantID =>
    by_cases ht : tenantID = ""
    · exact ⟨l, h, by simp [LogrusLogger.apply, LogrusLogger.SetTenantID, ht], hl, rfl,
        ⟨[], by simp⟩⟩
    · exact ⟨_, _, SetTenantID_eq l h e tenantID he ht, by simp, rfl, ⟨_, rfl⟩⟩
  | SetCorrelationID correlationID =>
    by_cases hc : correlationID = ""
    · exact ⟨l, h, by simp [LogrusLogger.apply, LogrusLogger.SetCorrelationID, hc], hl, rfl,
        ⟨[], by simp⟩⟩
    · exact ⟨_, _, SetCorrelationID_eq l h e correlationID he hc, by simp, rfl, ⟨_, rfl⟩⟩
  | WithField key value =>
    exact ⟨_, _, LWithField_eq l h e key value he, by simp, rfl, ⟨_, rfl⟩⟩
  | WithFields fields =>
    exact ⟨_, _, LWithFields_eq l h e fields he, by simp, rfl, ⟨_, rfl⟩⟩
  | WithError err =>
    exact ⟨_, _, LWithError_eq l h e err he, by simp, rfl, ⟨_, rfl⟩⟩
  | WithContext ctx =>
    obtain ⟨mid, hmid⟩ := LWithContext_eq l h e ctx he
    exact ⟨_, _, hmid, by simp, rfl, ⟨_, List.append_assoc _ _ _⟩⟩

/-- A chain of deriving calls from a live logger returns, and leaves every
entry that existed before it as it was. -/
theorem derive_extends (ops : List Op) (l : LogrusLogger) (h : Heap)
    (hl : l.entry < h.entries.length) :
    ∃ l1 h1, l.derive h ops = some (l1, h1) ∧ l1.entry < h1.entries.length ∧
      h1.loggers = h.loggers ∧ ∃ extra, h1.entries = h.entries ++ extra := by
  induction ops generalizing l h with
  | nil => exact ⟨l, h, rfl, hl, rfl, ⟨[], by simp⟩⟩
  | cons op ops ih =>
    obtain ⟨l1, h1, hop, hl1, hg1, x1, hx1⟩ := apply_extends l h op hl
    obtain ⟨l2, h2, hd, hl2, hg2, x2, hx2⟩ := ih l1 h1 hl1
    refine ⟨l2, h2, ?_, hl2, hg2.trans hg1, ⟨x1 ++ x2, ?_⟩⟩
    · simp only [LogrusLogger.derive, hop, hd]
    · rw [hx2, hx1, List.append_assoc]

theorem getElem?_append_of_some {α : Type} (xs extra : List α) (p : Nat) (a : α)
    (hp : xs[p]? = some a) : (xs ++ extra)[p]? = some a := by
  have hlt : p < xs.length := by
    by_contra hge
    rw [List.getElem?_eq_none (Nat.le_of_not_lt hge)] at hp
    exact Option.noConfusion hp
  rw [List.getElem?_append_left hlt]
  exact hp

/-! ## Theorems: the contextual logger -/

/-- C4: `SetCorrelationID("")` returns the receiver itself (same entry, same
CorrelationID, same TenantID) and touches nothing, so `GetCorrelationID()` of
the result is the receiver's; `SetTenantID("")` likewise returns the
receiver. -/
theorem Set_empty_returns_receiver (l : LogrusLogger) (h : Heap) :
    l.SetCorrelationID h "" = some (l, h) ∧
    (l.SetCorrelationID h "").map (fun r => r.1.GetCorrelationID) = some l.GetCorrelationID ∧
    l.SetTenantID h "" = some (l, h) ∧
    (l.SetTenantID h "").map (fun r => r.1.GetTenantID) = some l.GetTenantID := by
  simp [LogrusLogger.SetCorrelationID, LogrusLogger.SetTenantID]

/-- C10: the stored identifiers are not carried through derivations. On a
logger with a live entry, `SetArea`, `SetOperation`, `WithField`, `WithFields`
and `WithError` each return a logger whose `GetCorrelationID()` and
`GetTenantID()` are both empty, whatever the receiver's were; for non-empty
`c`, `SetCorrelationID(c)` returns a logger with `GetCorrelationID() = c` and
`GetTenantID() = ""`, and for non-empty `t`, `SetTenantID(t)` returns one with
`GetTenantID() = t` and `GetCorrelationID() = ""`. -/
theorem ids_not_carried (l : LogrusLogger) (h : Heap) (area operation key : String)
    (value err : Any) (fields : Fields) (c t : String)
    (hl : l.entry < h.entries.length) :
    ReturnsIDs (l.SetArea h area) "" "" ∧
    ReturnsIDs (l.SetOperation h operation) "" "" ∧
    ReturnsIDs (l.WithField h key value) "" "" ∧
    ReturnsIDs (l.WithFields h fields) "" "" ∧
    ReturnsIDs (l.WithError h err) "" "" ∧
    (c ≠ "" → ReturnsIDs (l.SetCorrelationID h c) c "") ∧
    (t ≠ "" → ReturnsIDs (l.SetTenantID h t) "" t) := by
  obtain ⟨e, he⟩ := getElem?_of_lt_entries h l.entry hl
  refine ⟨⟨_, _, SetArea_eq l h e area he, rfl, rfl⟩,
    ⟨_, _, SetOperation_eq l h e operation he, rfl, rfl⟩,
    ⟨_, _, LWithField_eq l h e key value he, rfl, rfl⟩,
    ⟨_, _, LWithFields_eq l h e fields he, rfl, rfl⟩,
    ⟨_, _, LWithError_eq l h e err he, rfl, rfl⟩,
    fun hc => ⟨_, _, SetCorrelationID_eq l h e c he hc, rfl, rfl⟩,
    fun ht => ⟨_, _, SetTenantID_eq l h e t he ht, rfl, rfl⟩⟩

theorem ids_not_carried_witness :
    (0 < (rootAt logrus.InfoLevel).2.entries.length ∧ "c1" ≠ "" ∧ "t1" ≠ "") ∧
    ReturnsIDs (LogrusLogger.SetArea ⟨0, "c0", "t0"⟩ (rootAt logrus.InfoLevel).2 "a") "" "" ∧
    ReturnsIDs (LogrusLogger.SetCorrelationID ⟨0, "c0", "t0"⟩ (rootAt logrus.InfoLevel).2 "c1")
      "c1" "" ∧
    ReturnsIDs (LogrusLogger.SetTenantID ⟨0, "c0", "t0"⟩ (rootAt logrus.InfoLevel).2 "t1")
      "" "t1" :=
  have w := ids_not_carried ⟨0, "c0", "t0"⟩ (rootAt logrus.InfoLevel).2 "a" "o" "k"
    (Any.int 1) (Any.err "boom") [] "c1" "t1" (by decide)
  ⟨⟨by decide, by decide, by decide⟩, w.1, w.2.2.2.2.2.1 (by decide),
    w.2.2.2.2.2.2 (by decide)⟩

/-- C8: `B = A.WithField(k, v)` leaves `A` as it was. The receiver is passed by
value, so its `CorrelationID` and `TenantID` cannot be written; the backend
entry `A` points to (logger pointer, field map, context) is the same after the
call, the backend loggers are untouched, and after any further chain of
deriving calls from `B` it is still the same. -/
theorem WithField_leaves_receiver (A : LogrusLogger) (h : Heap) (e : logrus.Entry)
    (k : String) (v : Any) (hA : h.entries[A.entry]? = some e) :
    ∃ B h1, A.WithField h k v = some (B, h1) ∧
      h1.entries[A.entry]? = some e ∧ h1.loggers = h.loggers ∧
      ∀ ops : List Op, ∃ C h2, B.derive h1 ops = some (C, h2) ∧
        h2.entries[A.entry]? = some e ∧ h2.loggers = h.loggers := by
  refine ⟨_, _, LWithField_eq A h e k v hA, getElem?_append_of_some _ _ _ _ hA, rfl, ?_⟩
  intro ops
  obtain ⟨C, h2, hd, _, hg, extra, hx⟩ :=
    derive_extends ops ⟨h.entries.length, "", ""⟩
      { h with entries := h.entries ++
          [{ Logger := e.Logger, Data := Fields.insert e.Data k v, Context := e.Context }] }
      (by simp)
  refine ⟨C, h2, hd, ?_, hg⟩
  rw [hx]
  exact getElem?_append_of_some _ _ _ _ (getElem?_append_of_some _ _ _ _ hA)

theorem WithField_leaves_receiver_witness :
    (rootAt logrus.InfoLevel).2.entries[(rootAt logrus.InfoLevel).1.entry]? =
      some { Logger := 0, Data := [], Context := none } ∧
    ∃ B h1, (rootAt logrus.InfoLevel).1.WithField (rootAt logrus.InfoLevel).2 "k" (Any.str "v")
        = some (B, h1) ∧
      h1.entries[(rootAt logrus.InfoLevel).1.entry]? =
        some { Logger := 0, Data := [], Context := none } ∧
      h1.loggers = (rootAt logrus.InfoLevel).2.loggers ∧
      ∀ ops : List Op, ∃ C h2, B.derive h1 ops = some (C, h2) ∧
        h2.entries[(rootAt logrus.InfoLevel).1.entry]? =
          some { Logger := 0, Data := [], Context := none } ∧
        h2.loggers = (rootAt logrus.InfoLevel).2.loggers :=
  ⟨by decide, WithField_leaves_receiver (rootAt logrus.InfoLevel).1 (rootAt logrus.InfoLevel).2
    { Logger := 0, Data := [], Context := none } "k" (Any.str "v") (by decide)⟩

/-- C1, what the code does where the claim expects `GetCorrelationID() = c`:
for a logger with a live entry and a context in which `correlationId` holds
the string `c` and `tenantId` is absent, `WithContext` returns a logger whose
`GetCorrelationID()` and `GetTenantID()` are both the empty string, also for
non-empty `c`. The identifier is not lost on the way: `SetCorrelationID c`, the
call `WithContext` makes first, returns a logger that reports `c`, and the
entry of the result has the context bound, the same backend logger, and the
receiver's field map with "CorrelationID" = `c` stored when `c` is non-empty;
the logger built around that entry leaves the stored identifiers out. -/
theorem WithContext_ids_on_entry_only (l : LogrusLogger) (h : Heap) (e : logrus.Entry)
    (ctx : context.Context) (c : String)
    (he : h.entries[l.entry]? = some e)
    (hc : ctx.Value ContextKeyRequestID = Any.str c)
    (ht : ctx.Value ContextKeyTenantID = Any.nil) :
    ∃ l1 h1 e1, l.WithContext h ctx = some (l1, h1) ∧
      l1.GetCorrelationID = "" ∧ l1.GetTenantID = "" ∧
      h1.entries[l1.entry]? = some e1 ∧
      e1.Context = some ctx ∧ e1.Logger = e.Logger ∧
      e1.Data = (if c = "" then e.Data else Fields.insert e.Data "CorrelationID" (Any.str c)) ∧
      (c ≠ "" → e1.Data.get? "CorrelationID" = some (Any.str c)) ∧
      (c ≠ "" → ReturnsIDs (l.SetCorrelationID h c) c "") := by
  obtain ⟨mid, hmid⟩ := LWithContext_eq l h e ctx he
  have hreq : GetRequestID ctx = c := by simp [GetRequestID, hc]
  have hten : GetTenantID ctx = "" := by simp [GetTenantID, ht]
  rw [hreq, hten] at hmid
  refine ⟨_, _, _, hmid, rfl, rfl, List.getElem?_concat_length _ _, rfl, rfl, ?_, ?_,
    fun hne => ⟨_, _, SetCorrelationID_eq l h e c he hne, rfl, rfl⟩⟩
  · simp [withContextData]
  · intro hne
    simp only [withContextData, if_neg hne, if_true]
    exact Fields_get?_insert _ _ _

theorem WithContext_ids_on_entry_only_witness :
    ((rootAt logrus.InfoLevel).2.entries[(rootAt logrus.InfoLevel).1.entry]? =
        some { Logger := 0, Data := [], Context := none } ∧
      ctxAbc.Value ContextKeyRequestID = Any.str "abc123" ∧
      ctxAbc.Value ContextKeyTenantID = Any.nil) ∧
    ∃ l1 h1 e1, (rootAt logrus.InfoLevel).1.WithContext (rootAt logrus.InfoLevel).2 ctxAbc
        = some (l1, h1) ∧
      l1.GetCorrelationID = "" ∧ l1.GetTenantID = "" ∧
      h1.entries[l1.entry]? = some e1 ∧
      e1.Context = some ctxAbc ∧ e1.Logger = 0 ∧
      e1.Data = (if "abc123" = "" then []
        else Fields.insert [] "CorrelationID" (Any.str "abc123")) ∧
      ("abc123" ≠ "" → e1.Data.get? "CorrelationID" = some (Any.str "abc123")) ∧
      ("abc123" ≠ "" → ReturnsIDs
        ((rootAt logrus.InfoLevel).1.SetCorrelationID (rootAt logrus.InfoLevel).2 "abc123")
        "abc123" "") :=
  ⟨⟨by decide, by decide, by decide⟩,
   WithContext_ids_on_entry_only (rootAt logrus.InfoLevel).1 (rootAt logrus.InfoLevel).2
    { Logger := 0, Data := [], Context := none } ctxAbc "abc123"
    (by decide) (by decide) (by decide)⟩

/-- The failing input of `WithContext`: on a fresh root logger and the context
holding `correlationId = "abc123"` and no `tenantId`, the returned logger has
`GetCorrelationID() = ""`, so it is not one that reports "abc123". -/
theorem WithContext_GetCorrelationID_counterexample :
    ((rootAt logrus.InfoLevel).1.entry < (rootAt logrus.InfoLevel).2.entries.length ∧
      ctxAbc.Value ContextKeyRequestID = Any.str "abc123" ∧
      ctxAbc.Value ContextKeyTenantID = Any.nil) ∧
    ((rootAt logrus.InfoLevel).1.WithContext (rootAt logrus.InfoLevel).2 ctxAbc).map
      (fun r => r.1.GetCorrelationID) = some "" ∧
    ¬ ReturnsIDs ((rootAt logrus.InfoLevel).1.WithContext (rootAt logrus.InfoLevel).2 ctxAbc)
      "abc123" "" := by
  have hval : ((rootAt logrus.InfoLevel).1.WithContext (rootAt logrus.InfoLevel).2 ctxAbc).map
      (fun r => r.1.GetCorrelationID) = some "" := by decide
  refine ⟨⟨by decide, by decide, by decide⟩, hval, ?_⟩
  rintro ⟨l1, h1, heq, hcid, _⟩
  rw [heq] at hval
  simp only [Option.map_some', Option.some.injEq] at hval
  rw [hval] at hcid
  exact absurd hcid (by decide)

/-- C5: when the backend parser rejects the string `ParseLevel level`,
`SetLevel level` returns that non-nil error, the heap is left as it was, and so
`GetLevel()` afterwards reads the threshold it read before. -/
theorem SetLevel_rejected (parse : String → Except String Nat) (l : LogrusLogger) (h : Heap)
    (level : Level) (msg : String) (hp : parse (ParseLevel level) = Except.error msg) :
    ∃ err h1, l.SetLevel parse h level = some (some err, h1) ∧
      h1 = h ∧ l.GetLevel h1 = l.GetLevel h := by
  refine ⟨msg, h, ?_, rfl, rfl⟩
  simp only [LogrusLogger.SetLevel, hp]

theorem SetLevel_rejected_witness :
    parseErrorOnly (ParseLevel DebugLevel) = Except.error "unknown level" ∧
    ∃ err h1, (rootAt logrus.InfoLevel).1.SetLevel parseErrorOnly (rootAt logrus.InfoLevel).2
        DebugLevel = some (some err, h1) ∧
      h1 = (rootAt logrus.InfoLevel).2 ∧
      (rootAt logrus.InfoLevel).1.GetLevel h1 =
        (rootAt logrus.InfoLevel).1.GetLevel (rootAt logrus.InfoLevel).2 :=
  ⟨rfl, SetLevel_rejected parseErrorOnly (rootAt logrus.InfoLevel).1
    (rootAt logrus.InfoLevel).2 DebugLevel "unknown level" rfl⟩

/-- Whatever the level value, `ParseLevel` names a level the backend table
holds, and the level stored there maps back to `ToLogLevel (ParseLevel level)`. -/
theorem parse_ParseLevel (parse : String → Except String Nat)
    (hparse : ∀ p ∈ logrus.levelTable, parse p.1 = Except.ok p.2)
    (tbl : Char → Char) (level : Level) :
    ∃ n, parse (ParseLevel level) = Except.ok n ∧
      ParseLogrusLevel n = ToLogLevel tbl (ParseLevel level) ∧
      ToLogLevel tbl (ParseLevel level) = (if level ≤ TraceLevel then level else InfoLevel) := by
  by_cases h : level ≤ 6
  · have hsmall : ∀ n : Nat, n ≤ 6 →
        n = 0 ∨ n = 1 ∨ n = 2 ∨ n = 3 ∨ n = 4 ∨ n = 5 ∨ n = 6 :=
      fun n hn => by omega
    have hcases := hsmall level h
    rcases hcases with h | h | h | h | h | h | h <;> subst h
    · exact ⟨0, hparse ("panic", 0) (by decide), rfl, rfl⟩
    · exact ⟨1, hparse ("fatal", 1) (by decide), rfl, rfl⟩
    · exact ⟨2, hparse ("error", 2) (by decide), rfl, rfl⟩
    · exact ⟨3, hparse ("warn", 3) (by decide), rfl, rfl⟩
    · exact ⟨4, hparse ("info", 4) (by decide), rfl, rfl⟩
    · exact ⟨5, hparse ("debug", 5) (by decide), rfl, rfl⟩
    · exact ⟨6, hparse ("trace", 6) (by decide), rfl, rfl⟩
  · have hinfo := ParseLevel_of_gt level h
    have hne : ¬ level ≤ TraceLevel := h
    rw [hinfo, if_neg hne]
    exact ⟨4, hparse ("info", 4) (by decide), rfl, rfl⟩

/-- The logrus parser accepts every name of its table. -/
theorem logrus_ParseLevel_table (tbl : Char → Char) :
    ∀ p ∈ logrus.levelTable, logrus.ParseLevel tbl p.1 = Except.ok p.2 := by
  intro p hp
  simp only [logrus.levelTable, List.mem_cons, List.mem_singleton, List.not_mem_nil,
    or_false] at hp
  rcases hp with h | h | h | h | h | h | h | h <;> subst h <;> rfl

/-- C9: for every level value, defined or out of range, `SetLevel level` on a
logger with a live entry and backend logger returns no error, given that the
backend parser accepts the level names of logrus (as `logrus.ParseLevel`
does); afterwards `GetLevel()` is `ToLogLevel (ParseLevel level)`, which is
`level` itself for the seven defined levels and `InfoLevel` otherwise. -/
theorem SetLevel_never_fails (tbl : Char → Char) (parse : String → Except String Nat)
    (l : LogrusLogger) (h : Heap) (e : logrus.Entry) (g : logrus.Logger) (level : Level)
    (hparse : ∀ p ∈ logrus.levelTable, parse p.1 = Except.ok p.2)
    (he : h.entries[l.entry]? = some e) (hg : h.loggers[e.Logger]? = some g) :
    ∃ h1, l.SetLevel parse h level = some (none, h1) ∧
      l.GetLevel h1 = some (ToLogLevel tbl (ParseLevel level)) ∧
      ToLogLevel tbl (ParseLevel level) = (if level ≤ TraceLevel then level else InfoLevel) := by
  obtain ⟨n, hn, hback, hval⟩ := parse_ParseLevel parse hparse tbl level
  have hlt : e.Logger < h.loggers.length := by
    by_contra hge
    rw [List.getElem?_eq_none (Nat.le_of_not_lt hge)] at hg
    exact Option.noConfusion hg
  refine ⟨{ h with loggers := h.loggers.set e.Logger ({ g with Level := n }) }, ?_, ?_, hval⟩
  · simp only [LogrusLogger.SetLevel, hn, he, hg]
  · simp only [LogrusLogger.GetLevel, he, List.getElem?_eq_getElem,
      List.length_set, hlt, List.getElem_set_self, hback]

theorem SetLevel_never_fails_witness :
    ((∀ p ∈ logrus.levelTable, logrus.ParseLevel id p.1 = Except.ok p.2) ∧
      (rootAt logrus.InfoLevel).2.entries[(rootAt logrus.InfoLevel).1.entry]? =
        some { Logger := 0, Data := [], Context := none } ∧
      (rootAt logrus.InfoLevel).2.loggers[0]? = some { Level := logrus.InfoLevel, Out := [] }) ∧
    ∃ h1, (rootAt logrus.InfoLevel).1.SetLevel (logrus.ParseLevel id)
        (rootAt logrus.InfoLevel).2 9 = some (none, h1) ∧
      (rootAt logrus.InfoLevel).1.GetLevel h1 = some (ToLogLevel id (ParseLevel 9)) ∧
      ToLogLevel id (ParseLevel 9) = (if 9 ≤ TraceLevel then 9 else InfoLevel) :=
  ⟨⟨logrus_ParseLevel_table id, by decide, by decide⟩,
   SetLevel_never_fails id (logrus.ParseLevel id) (rootAt logrus.InfoLevel).1
    (rootAt logrus.InfoLevel).2 { Logger := 0, Data := [], Context := none }
    { Level := logrus.InfoLevel, Out := [] } 9 (logrus_ParseLevel_table id)
    (by decide) (by decide)⟩

/-- C2, the code at threshold `TraceLevel`: Debug records are enabled there
(`DebugLevel` is at most the threshold), yet `TrackFuncTime` returns at its
guard `lvl > DebugLevel` with the heap as it was: nothing is handed to the
backend and no record is written. -/
theorem TrackFuncTime_silent_at_trace (l : LogrusLogger) (h : Heap) (e : logrus.Entry)
    (g : logrus.Logger) (c : Caller) (start now : Int)
    (he : h.entries[l.entry]? = some e) (hg : h.loggers[e.Logger]? = some g)
    (hlv : g.Level = logrus.TraceLevel) :
    logrus.DebugLevel ≤ g.Level ∧
    l.GetLevel h = some TraceLevel ∧
    l.TrackFuncTime h c start now = some h ∧
    (l.TrackFuncTime h c start now).bind (fun h1 => h1.outOf l.entry) = some g.Out := by
  have hget : l.GetLevel h = some TraceLevel := by
    simp only [LogrusLogger.GetLevel, he, hg, hlv]
    rfl
  have hrun : l.TrackFuncTime h c start now = some h := by
    simp only [LogrusLogger.TrackFuncTime, hget]
    rfl
  refine ⟨by rw [hlv]; decide, hget, hrun, ?_⟩
  rw [hrun]
  simp only [Option.some_bind, Heap.outOf, he, hg]

theorem TrackFuncTime_silent_at_trace_witness :
    ((rootAt logrus.TraceLevel).2.entries[(rootAt logrus.TraceLevel).1.entry]? =
        some { Logger := 0, Data := [], Context := none } ∧
      (rootAt logrus.TraceLevel).2.loggers[0]? = some { Level := logrus.TraceLevel, Out := [] } ∧
      logrus.TraceLevel = logrus.TraceLevel) ∧
    (rootAt logrus.TraceLevel).1.TrackFuncTime (rootAt logrus.TraceLevel).2
      ⟨"main.go", 12, "main.work"⟩ 100 250 = some (rootAt logrus.TraceLevel).2 :=
  ⟨⟨by decide, by decide, rfl⟩,
   (TrackFuncTime_silent_at_trace (rootAt logrus.TraceLevel).1 (rootAt logrus.TraceLevel).2
    { Logger := 0, Data := [], Context := none } { Level := logrus.TraceLevel, Out := [] }
    ⟨"main.go", 12, "main.work"⟩ 100 250 (by decide) (by decide) rfl).2.2.1⟩

theorem ParseLogrusLevel_le_debug (n : Nat) (hn : n ≠ logrus.TraceLevel) :
    ¬ ParseLogrusLevel n > DebugLevel := by
  unfold ParseLogrusLevel
  split_ifs <;> first | contradiction | decide

/-- Away from the `TraceLevel` threshold `TrackFuncTime` reaches the backend,
which writes the one Debug record with the "executionTime" field exactly when
Debug is enabled. -/
theorem TrackFuncTime_below_trace (l : LogrusLogger) (h : Heap) (e : logrus.Entry)
    (g : logrus.Logger) (c : Caller) (start now : Int)
    (he : h.entries[l.entry]? = some e) (hg : h.loggers[e.Logger]? = some g)
    (hlv : g.Level ≠ logrus.TraceLevel) :
    ∃ h1, l.TrackFuncTime h c start now = some h1 ∧
      h1.outOf l.entry = some (if logrus.DebugLevel ≤ g.Level then
        g.Out ++ [{ Level := logrus.DebugLevel, Message := "func execution completed",
                    Data := trackData e.Data c (time.Since start now) }]
        else g.Out) := by
  have hget : l.GetLevel h = some (ParseLogrusLevel g.Level) := by
    simp only [LogrusLogger.GetLevel, he, hg]
  have hguard := ParseLogrusLevel_le_debug g.Level hlv
  simp only [LogrusLogger.TrackFuncTime, hget, if_neg hguard, LogrusLogger.addCallerInfo,
    WithField_eq h l.entry e _ _ he]
  rw [WithField_eq _ _ _ "Line" _ (List.getElem?_concat_length _ _)]
  dsimp only
  rw [WithField_eq _ _ _ "Func" _ (List.getElem?_concat_length _ _)]
  dsimp only
  rw [WithField_eq _ _ _ "executionTime" _ (List.getElem?_concat_length _ _)]
  dsimp only
  simp only [logrus.Entry.Debug, logrus.Entry.Log, List.getElem?_concat_length, hg]
  have hlt : e.Logger < h.loggers.length := by
    by_contra hge
    rw [List.getElem?_eq_none (Nat.le_of_not_lt hge)] at hg
    exact Option.noConfusion hg
  have hent : ∀ a b c d : logrus.Entry,
      (h.entries ++ [a] ++ [b] ++ [c] ++ [d])[l.entry]? = some e := fun a b c d =>
    getElem?_append_of_some _ _ _ _ (getElem?_append_of_some _ _ _ _
      (getElem?_append_of_some _ _ _ _ (getElem?_append_of_some _ _ _ _ he)))
  by_cases hd : logrus.DebugLevel ≤ g.Level
  · simp only [if_pos hd]
    refine ⟨_, rfl, ?_⟩
    simp only [Heap.outOf, hent, List.getElem?_eq_getElem, List.length_set, hlt,
      List.getElem_set_self, trackData]
  · simp only [if_neg hd]
    refine ⟨_, rfl, ?_⟩
    simp only [Heap.outOf, hent, hg]

end Logger
